import Mathlib

/-!
Shallow embedding of the PS2 Half-Life texture extraction tools
(`src/PS2-HLTE.py` and `src/dol_png.py`).  Bytes are natural numbers,
byte strings are `List ℕ`, Python slicing and `bytes.find` are modelled
explicitly, and Python exceptions are modelled by explicit error results.
-/

set_option maxHeartbeats 1000000
set_option maxRecDepth 100000

namespace PS2

/-- Python slice `d[a:b]` for nonnegative bounds (clamped at the buffer end). -/
def slice (d : List ℕ) (a b : ℕ) : List ℕ :=
  (d.drop a).take (b - a)

/-- Little-endian integer decoding of a byte string, as Python
`int.from_bytes(bs, byteorder="little")`. -/
def leBytes : List ℕ → ℕ
  | [] => 0
  | b :: bs => b + 256 * leBytes bs

/-- Helper for `findPat`: scan the successive tails of a buffer suffix,
returning the absolute index of the first tail that starts with `pat`. -/
def findPatFrom (pat : List ℕ) : List ℕ → ℕ → Option ℕ
  | [], _ => none
  | a :: t, i => if pat.isPrefixOf (a :: t) then some i else findPatFrom pat t (i + 1)

/-- Python `d.find(pat, s)` for byte strings: the least index `i ≥ s` at which
`pat` occurs as a contiguous run in `d`, or `none` (Python returns -1). -/
def findPat (d pat : List ℕ) (s : ℕ) : Option ℕ :=
  findPatFrom pat (d.drop s) s

/-- The function `sanitize_filename` from `PS2-HLTE.py`: replace NUL
characters by `_` (code 95). -/
def sanitize_filename (s : List ℕ) : List ℕ :=
  s.map (fun c => if c = 0 then 95 else c)

/-- Python `bytes.decode("ascii", errors="ignore")`: keep only bytes `< 128`. -/
def asciiDecode (bs : List ℕ) : List ℕ :=
  bs.filter (fun b => decide (b < 128))

/-- The name-extension loop of `extract_textures` (`PS2-HLTE.py` lines 79-81),
with explicit fuel: advance `name_end` until three consecutive zero bytes
are found or the buffer bound check fails. -/
def nameEndLoop (d : List ℕ) : ℕ → ℕ → ℕ
  | 0, k => k
  | f + 1, k =>
    if k + 3 < d.length ∧ slice d k (k + 3) ≠ [0, 0, 0] then nameEndLoop d f (k + 1)
    else k

/-- End offset of a texture name whose marker match starts at `k - 4`;
fuel `d.length + 1` dominates the number of loop iterations. -/
def nameEnd (d : List ℕ) (k : ℕ) : ℕ :=
  nameEndLoop d (d.length + 1) k

/-- Name extraction of `extract_textures` (`PS2-HLTE.py` lines 78-86): the bytes
from the matched marker (inclusive) up to the computed name end,
ASCII-decoded ignoring non-ASCII bytes, then sanitized. -/
def extract_name (d : List ℕ) (ns : ℕ) : List ℕ :=
  sanitize_filename (asciiDecode (slice d ns (nameEnd d (ns + 4))))

/-- Left-to-right effectful map in the `Except` monad, stopping at the first
error; models a Python `for` loop whose body may raise. -/
def mapOrErr : List α → (α → Except String β) → Except String (List β)
  | [], _ => Except.ok []
  | a :: l, f =>
    match f a with
    | Except.error e => Except.error e
    | Except.ok b =>
      match mapOrErr l f with
      | Except.error e => Except.error e
      | Except.ok bs => Except.ok (b :: bs)

/-- The function `extract_palette` from `PS2-HLTE.py`: 256 four-byte quads read
from the start of the texture data, keeping R,G,B and discarding the fourth
byte.  A quad that does not have exactly 4 bytes makes the Python tuple
unpacking `r, g, b, a = color` raise `ValueError`. -/
def extract_palette (td : List ℕ) : Except String (List (List ℕ)) :=
  mapOrErr (List.range 256) (fun i =>
    match slice td (i * 4) (i * 4 + 4) with
    | [r, g, b, _] => Except.ok [r, g, b]
    | _ => Except.error "ValueError")

/-- The function `extract_texture_indices` from `PS2-HLTE.py`: the
`height × width` grid of palette indices, read row-major, one byte per
pixel; an out-of-range read raises `IndexError`.  (The Python function
also receives the palette argument, which its body never uses.) -/
def extract_texture_indices (td : List ℕ) (width height : ℕ) :
    Except String (List (List ℕ)) :=
  mapOrErr (List.range height) (fun y =>
    mapOrErr (List.range width) (fun x =>
      match td.get? (y * width + x) with
      | some b => Except.ok b
      | none => Except.error "IndexError"))

/-- One texture record saved by `extract_textures`. -/
structure TextureRec where
  name : List ℕ
  texture_start : ℕ
  texture_end : ℕ
  width : ℕ
  height : ℕ
  palette : List (List ℕ)
  indices : List (List ℕ)
deriving DecidableEq

/-- The byte marker `psx_` (0x70 0x73 0x78 0x5F). -/
def psxMarker : List ℕ := [112, 115, 120, 95]

/-- The byte marker `gman` (0x67 0x6D 0x61 0x6E). -/
def gmanMarker : List ℕ := [103, 109, 97, 110]

/-- The texture data sentinel `FF FF FF 80`. -/
def dataSentinel : List ℕ := [255, 255, 255, 128]

/-- The reserved name tail `.BMP` (0x2E 0x42 0x4D 0x50). -/
def bmpTail : List ℕ := [46, 66, 77, 80]

/-- The scan loop of `extract_textures` (`PS2-HLTE.py` lines 67-147), with
explicit fuel for the `while` loop.  The result pairs the list of texture
records saved before termination with `some e` when a decode error
aborted the loop (an uncaught Python exception) and `none` on normal
termination; fuel `d.length + 1` dominates the iteration count since
`start` strictly increases each iteration. -/
def scanLoop (d : List ℕ) : ℕ → ℕ → List TextureRec × Option String
  | 0, _ => ([], none)
  | fuel + 1, start =>
    if start < d.length then
      match findPat d psxMarker start with
      | none => ([], none)
      | some _ =>
        match findPat d gmanMarker start with
        | none => ([], none)
        | some ns =>
          let ne := nameEnd d (ns + 4)
          let tname := extract_name d ns
          if bmpTail.isSuffixOf tname then scanLoop d fuel ne
          else
            match findPat d dataSentinel ne with
            | none => ([], none)
            | some ts =>
              let te := (findPat d psxMarker (ts + 4)).getD d.length
              let td := slice d ts te
              if 4 ≤ ts then
                let sd := slice d (ts - 4) ts
                match extract_palette td with
                | Except.error e => ([], some e)
                | Except.ok pal =>
                  match extract_texture_indices (td.drop (256 * 4))
                      (leBytes (sd.take 2)) (leBytes (sd.drop 2)) with
                  | Except.error e => ([], some e)
                  | Except.ok idx =>
                    let rest := scanLoop d fuel ne
                    (⟨tname, ts, te, leBytes (sd.take 2), leBytes (sd.drop 2),
                      pal, idx⟩ :: rest.1, rest.2)
              else scanLoop d fuel ne
    else ([], none)

/-- The function `extract_textures` from `PS2-HLTE.py` applied to an in-memory
buffer: run the scan loop from offset 0. -/
def extract_textures (d : List ℕ) : List TextureRec × Option String :=
  scanLoop d (d.length + 1) 0

/-- One step of the loop body of `ps2_palette_reformat` from `dol_png.py` at
its default stride `s = 4`: swap byte `i` with byte `i - 0x08*4` whenever
`i % (0x20*4)` lies in the range from `0x10*4` up to (excluding) `0x18*4`. -/
def swapStep (p : List ℕ) (i : ℕ) : List ℕ :=
  if 0x10 * 4 ≤ i % (0x20 * 4) ∧ i % (0x20 * 4) < 0x18 * 4 then
    (p.set i (p.getD (i - 0x08 * 4) 0)).set (i - 0x08 * 4) (p.getD i 0)
  else p

/-- The method `ps2_palette_reformat` from `dol_png.py`: the loop
`for i in range(len(p))` applying `swapStep` in order. -/
def ps2_palette_reformat (pal : List ℕ) : List ℕ :=
  (List.range pal.length).foldl swapStep pal

/-- One texture dictionary built by `load_mdl` in `dol_png.py`. -/
structure Tex where
  name : List ℕ
  flags : ℕ
  width : ℕ
  height : ℕ
  offset : ℕ
  palette : List ℕ
deriving DecidableEq

/-- The palette list comprehension of `get_texture_image`:
`[tuple(palette_raw[i:i+3]) for i in range(0, 1024, 4)]`. -/
def paletteOfRaw (raw : List ℕ) : List (List ℕ) :=
  (List.range 256).map (fun k => slice raw (4 * k) (4 * k + 3))

/-- The method `get_texture_image` from `dol_png.py` (lines 228-240): palette
lookup is clamped with `i % len(palette)` and the pixel byte slice is
truncated silently by Python slicing.  Per the PIL documentation,
`Image.putdata` raises (caught by the broad `except`, giving `none`) when
an entry is not a length-3 tuple, and with fewer entries than pixels it
fills only the pixels provided; the result therefore carries the pixel
list actually written. -/
def get_texture_image (data : List ℕ) (tex : Tex) :
    Option (ℕ × ℕ × List (List ℕ)) :=
  let palette := paletteOfRaw tex.palette
  let pixel_data := slice data (tex.offset + 1024) (tex.offset + 1024 + tex.width * tex.height)
  let pixels := pixel_data.map (fun i => palette.getD (i % palette.length) [])
  if pixels.all (fun p => decide (p.length = 3)) then some (tex.width, tex.height, pixels)
  else none

/-- The method `save_all_png8` from `dol_png.py` (lines 271-284): save every
texture whose `get_texture_image` succeeds, in list order, skipping the
failures. -/
def save_all_png8 (data : List ℕ) (texs : List Tex) :
    List (List ℕ × (ℕ × ℕ × List (List ℕ))) :=
  texs.filterMap (fun t => (get_texture_image data t).map (fun img => (t.name, img)))

/-- Declarative swizzle permutation of the specification: within each 128-byte
block, offsets in the range from 64 up to (excluding) 96 trade places with
the offset 32 positions earlier; all other offsets are fixed. -/
def swizzlePerm (i : ℕ) : ℕ :=
  if 64 ≤ i % 128 ∧ i % 128 < 96 then i - 32
  else if 32 ≤ i % 128 ∧ i % 128 < 64 then i + 32
  else i

/-- Declarative form of the palette swizzle correction, following the words of
the specification. -/
def swizzleSpec (pal : List ℕ) : List ℕ :=
  (List.range pal.length).map (fun i => pal.getD (swizzlePerm i) 0)

/-- Little-endian 16-bit value at absolute offset `i` of a buffer. -/
def le16 (d : List ℕ) (i : ℕ) : ℕ :=
  d.getD i 0 + 256 * d.getD (i + 1) 0

/-- Permutation realised by the first `k` steps of the reformat loop. -/
def permUpTo (k i : ℕ) : ℕ :=
  if 64 ≤ i % 128 ∧ i % 128 < 96 ∧ i < k then i - 32
  else if 32 ≤ i % 128 ∧ i % 128 < 64 ∧ i + 32 < k then i + 32
  else i

/-- Concrete buffer for claim C3: a `gman` marker followed by the name bytes
`AB` and a run of three zero bytes. -/
def dC3 : List ℕ := gmanMarker ++ [65, 66, 0, 0, 0]

/-- Concrete buffer for claim C9: a record whose extracted name is `gman.BMP`. -/
def dataC9 : List ℕ := psxMarker ++ gmanMarker ++ bmpTail ++ [0, 0, 0]

/-- Concrete texture for claim C6: a full 1024-byte palette block and declared
size 2 by 2. -/
def texC6 : Tex := ⟨[84], 0, 2, 2, 0, List.replicate 1024 5⟩

/-- Concrete buffer for claim C6: only 2 of the 4 declared pixel bytes exist. -/
def dataC6 : List ℕ := List.replicate 1026 1

/-- Concrete texture for the claim C8 witness: palette entry 5 holds the bytes
10, 20, 30. -/
def tex8 : Tex := ⟨[88], 0, 2, 1, 0, List.replicate 20 0 ++ [10, 20, 30] ++ List.replicate 1001 0⟩

/-- Concrete buffer for the claim C8 witness: both available pixel bytes are 5. -/
def data8 : List ℕ := List.replicate 1024 0 ++ [5, 5]

/-- One marker-delimited record for concrete scan inputs: a `psx_` occurrence,
the `gman` marker, a one-byte name tail, a three-zero terminator, the
4-byte size pattern (width 1, height 1), the data sentinel and the
payload. -/
def recBytes (c : ℕ) (payload : List ℕ) : List ℕ :=
  psxMarker ++ gmanMarker ++ [c] ++ [0, 0, 0] ++ [1, 0, 1, 0] ++ dataSentinel ++ payload

/-- Buffer with two records: record A has only 8 payload bytes (its texture
data runs to the next `psx_`, far fewer than the 1024 palette bytes), while
record B is complete: 1024 palette bytes plus its single pixel byte. -/
def dataC7 : List ℕ :=
  recBytes 65 (List.replicate 8 7) ++ recBytes 66 (List.replicate 1024 9 ++ [0])

/-- Texture whose decode fails in `get_texture_image`: its raw palette block is
empty, so every palette entry is an empty tuple and `putdata` raises. -/
def badTex : Tex := ⟨[66], 0, 1, 1, 0, []⟩

/-- Buffer with one well-formed record carrying the documented `psx_` name
marker (name, three-zero terminator, size pattern for 2 by 2, sentinel, a
full 1024-byte palette and the 4 pixel bytes) and no `gman` bytes
anywhere. -/
def dataC2 : List ℕ :=
  psxMarker ++ [65] ++ [0, 0, 0] ++ [2, 0, 2, 0] ++ dataSentinel ++
    List.replicate 1024 7 ++ List.replicate 4 3

/-- Buffer with a single complete record, used as concrete scan input. -/
def dataB : List ℕ := recBytes 66 (List.replicate 1024 9 ++ [0])

/-- Default record used only to project the head of a concrete record list. -/
def defRec : TextureRec := ⟨[], 0, 0, 0, 0, [], []⟩

/-! Helper lemmas. -/

lemma swapStep_eq (p : List ℕ) (i : ℕ) :
    swapStep p i = if 64 ≤ i % 128 ∧ i % 128 < 96 then
      (p.set i (p.getD (i - 32) 0)).set (i - 32) (p.getD i 0) else p := by
  norm_num [swapStep]

lemma length_swapStep (p : List ℕ) (i : ℕ) : (swapStep p i).length = p.length := by
  rw [swapStep_eq]; split <;> simp

lemma length_foldl_swap (l : List ℕ) (p : List ℕ) : (l.foldl swapStep p).length = p.length := by
  induction l generalizing p with
  | nil => rfl
  | cons a t ih => rw [List.foldl_cons, ih, length_swapStep]

lemma getD_set_self (l : List ℕ) (i v : ℕ) (h : i < l.length) :
    (l.set i v).getD i 0 = v := by
  simp [List.getD_eq_getElem?_getD, List.getElem?_set, h]

lemma getD_set_other (l : List ℕ) (i j v : ℕ) (h : i ≠ j) :
    (l.set i v).getD j 0 = l.getD j 0 := by
  simp [List.getD_eq_getElem?_getD, List.getElem?_set, h]

lemma foldl_swapStep_getD (p : List ℕ) :
    ∀ k, k ≤ p.length → ∀ j, j < p.length →
      ((List.range k).foldl swapStep p).getD j 0 = p.getD (permUpTo k j) 0 := by
  intro k
  induction k with
  | zero =>
    intro _ j hj
    have hp : permUpTo 0 j = j := by unfold permUpTo; split_ifs <;> omega
    simp [hp]
  | succ k ih =>
    intro hk1 j hj
    have hkp : k < p.length := by omega
    rw [List.range_succ, List.foldl_append, List.foldl_cons, List.foldl_nil]
    set q := (List.range k).foldl swapStep p with hqdef
    have hq : q.length = p.length := length_foldl_swap _ _
    by_cases hk : 64 ≤ k % 128 ∧ k % 128 < 96
    · rw [swapStep_eq, if_pos hk]
      have hk64 : 64 ≤ k := by omega
      by_cases hj32 : j = k - 32
      · rw [hj32]
        rw [getD_set_self _ _ _ (by rw [List.length_set]; omega)]
        rw [ih (by omega) k hkp]
        have e1 : permUpTo k k = k := by unfold permUpTo; split_ifs <;> omega
        have e2 : permUpTo (k + 1) (k - 32) = k := by unfold permUpTo; split_ifs <;> omega
        rw [e1, e2]
      · by_cases hjk : j = k
        · rw [hjk]
          rw [getD_set_other _ _ _ _ (by omega), getD_set_self _ _ _ (by omega)]
          rw [ih (by omega) (k - 32) (by omega)]
          have e1 : permUpTo k (k - 32) = k - 32 := by unfold permUpTo; split_ifs <;> omega
          have e2 : permUpTo (k + 1) k = k - 32 := by unfold permUpTo; split_ifs <;> omega
          rw [e1, e2]
        · rw [getD_set_other _ _ _ _ (by omega), getD_set_other _ _ _ _ (by omega)]
          rw [ih (by omega) j hj]
          have e : permUpTo (k + 1) j = permUpTo k j := by unfold permUpTo; split_ifs <;> omega
          rw [e]
    · rw [swapStep_eq, if_neg hk]
      rw [ih (by omega) j hj]
      have e : permUpTo (k + 1) j = permUpTo k j := by unfold permUpTo; split_ifs <;> omega
      rw [e]

lemma reformat_length (pal : List ℕ) : (ps2_palette_reformat pal).length = pal.length :=
  length_foldl_swap _ _

lemma reformat_getD (pal : List ℕ) (j : ℕ) (hj : j < pal.length) :
    (ps2_palette_reformat pal).getD j 0 = pal.getD (permUpTo pal.length j) 0 :=
  foldl_swapStep_getD pal pal.length le_rfl j hj

lemma permUpTo_lt (n j : ℕ) (hj : j < n) : permUpTo n j < n := by
  unfold permUpTo; split_ifs <;> omega

lemma permUpTo_invol (n j : ℕ) (hj : j < n) : permUpTo n (permUpTo n j) = j := by
  unfold permUpTo; split_ifs <;> omega

lemma isPrefixOf_exists : ∀ (p l : List ℕ), p.isPrefixOf l = true → ∃ t, l = p ++ t := by
  intro p
  induction p with
  | nil => intro l _; exact ⟨l, rfl⟩
  | cons a p ih =>
    intro l h
    cases l with
    | nil => simp [List.isPrefixOf] at h
    | cons b t =>
      simp only [List.isPrefixOf, Bool.and_eq_true, beq_iff_eq] at h
      obtain ⟨t1, ht⟩ := ih t h.2
      exact ⟨t1, by simp [h.1, ht]⟩

lemma findPatFrom_some (pat : List ℕ) :
    ∀ (l : List ℕ) (i j : ℕ), findPatFrom pat l i = some j →
      i ≤ j ∧ pat.isPrefixOf (l.drop (j - i)) = true := by
  intro l
  induction l with
  | nil => intro i j h; simp [findPatFrom] at h
  | cons a t ih =>
    intro i j h
    by_cases hp : pat.isPrefixOf (a :: t)
    · rw [findPatFrom, if_pos hp] at h
      have hij : i = j := by injection h
      subst hij
      exact ⟨le_rfl, by simpa using hp⟩
    · rw [findPatFrom, if_neg hp] at h
      obtain ⟨h1, h2⟩ := ih (i + 1) j h
      refine ⟨by omega, ?_⟩
      have hd : (a :: t).drop (j - i) = t.drop (j - (i + 1)) := by
        have hji : j - i = (j - (i + 1)) + 1 := by omega
        rw [hji, List.drop_succ_cons]
      rw [hd]
      exact h2

lemma findPat_some (d pat : List ℕ) (s j : ℕ) (h : findPat d pat s = some j) :
    s ≤ j ∧ ∃ t, d.drop j = pat ++ t := by
  obtain ⟨h1, h2⟩ := findPatFrom_some pat (d.drop s) s j h
  refine ⟨h1, ?_⟩
  obtain ⟨t, ht⟩ := isPrefixOf_exists _ _ h2
  rw [List.drop_drop] at ht
  have hsj : s + (j - s) = j := by omega
  rw [hsj] at ht
  exact ⟨t, ht⟩

lemma findPat_bound (d pat : List ℕ) (s j : ℕ) (h : findPat d pat s = some j)
    (hp : 0 < pat.length) : j + pat.length ≤ d.length := by
  obtain ⟨-, t, ht⟩ := findPat_some d pat s j h
  have hl := congrArg List.length ht
  simp [List.length_drop, List.length_append] at hl
  omega

lemma slice_three_le (d : List ℕ) (z : ℕ) (h : slice d z (z + 3) = [0, 0, 0]) :
    z + 3 ≤ d.length := by
  have hl := congrArg List.length h
  simp [slice, List.length_take, List.length_drop] at hl
  omega

lemma nameEndLoop_stop (d : List ℕ) :
    ∀ (f k z : ℕ), k ≤ z → z ≤ k + f →
      (d.length ≤ z + 3 ∨ slice d z (z + 3) = [0, 0, 0]) →
      (∀ j, k ≤ j → j < z → j + 3 < d.length ∧ slice d j (j + 3) ≠ [0, 0, 0]) →
      nameEndLoop d f k = z := by
  intro f
  induction f with
  | zero =>
    intro k z h1 h2 _ _
    rw [nameEndLoop]
    omega
  | succ f ih =>
    intro k z h1 h2 hstop hrun
    rw [nameEndLoop]
    by_cases hkz : k = z
    · have hnc : ¬(k + 3 < d.length ∧ slice d k (k + 3) ≠ [0, 0, 0]) := by
        rw [hkz]
        rcases hstop with h | h
        · intro hc; exact absurd hc.1 (by omega)
        · intro hc; exact hc.2 h
      rw [if_neg hnc]
      exact hkz
    · obtain ⟨hb, hs⟩ := hrun k le_rfl (by omega)
      rw [if_pos ⟨hb, hs⟩]
      exact ih (k + 1) z (by omega) (by omega) hstop (fun j hj1 hj2 => hrun j (by omega) hj2)

lemma nameEnd_eq (d : List ℕ) (k z : ℕ) (h1 : k ≤ z)
    (hstop : d.length ≤ z + 3 ∨ slice d z (z + 3) = [0, 0, 0])
    (hrun : ∀ j, k ≤ j → j < z → j + 3 < d.length ∧ slice d j (j + 3) ≠ [0, 0, 0]) :
    nameEnd d k = z := by
  apply nameEndLoop_stop d (d.length + 1) k z h1 _ hstop hrun
  by_cases hkz : k = z
  · omega
  · have := (hrun (z - 1) (by omega) (by omega)).1
    omega

lemma mapOrErr_ok {α β : Type} (l : List α) (f : α → Except String β) (g : α → β)
    (h : ∀ a ∈ l, f a = Except.ok (g a)) : mapOrErr l f = Except.ok (l.map g) := by
  induction l with
  | nil => rfl
  | cons a t ih =>
    rw [mapOrErr, h a (by simp), ih (fun b hb => h b (by simp [hb]))]
    rfl

lemma mapOrErr_error_mem {α β : Type} (l : List α) (f : α → Except String β) (e : String)
    (h : mapOrErr l f = Except.error e) : ∃ a ∈ l, f a = Except.error e := by
  induction l with
  | nil => simp [mapOrErr] at h
  | cons a t ih =>
    rw [mapOrErr] at h
    cases hfa : f a with
    | error e1 =>
      rw [hfa] at h
      injection h with h1
      exact ⟨a, by simp, by rw [hfa, h1]⟩
    | ok b =>
      rw [hfa] at h
      cases hrec : mapOrErr t f with
      | error e1 =>
        rw [hrec] at h
        injection h with h1
        obtain ⟨c, hc1, hc2⟩ := ih (by rw [hrec, h1])
        exact ⟨c, by simp [hc1], hc2⟩
      | ok bs => rw [hrec] at h; cases h

lemma mapOrErr_error_of_mem {α β : Type} (l : List α) (f : α → Except String β) (a : α)
    (ha : a ∈ l) (e : String) (he : f a = Except.error e) :
    ∃ e1, mapOrErr l f = Except.error e1 := by
  induction l with
  | nil => cases ha
  | cons b t ih =>
    rw [mapOrErr]
    cases hfb : f b with
    | error e1 => exact ⟨e1, rfl⟩
    | ok c =>
      have hat : a ∈ t := by
        rcases List.mem_cons.mp ha with h | h
        · rw [h] at he; rw [he] at hfb; cases hfb
        · exact h
      obtain ⟨e1, h1⟩ := ih hat
      rw [h1]
      exact ⟨e1, rfl⟩

lemma paletteOfRaw_length (raw : List ℕ) : (paletteOfRaw raw).length = 256 := by
  simp [paletteOfRaw]

lemma paletteOfRaw_entry_len (raw : List ℕ) (hraw : raw.length = 1024)
    (i : ℕ) (hi : i < 256) : ((paletteOfRaw raw).getD i []).length = 3 := by
  unfold paletteOfRaw
  rw [List.getD_eq_getElem _ _ (by simpa using hi)]
  rw [List.getElem_map, List.getElem_range]
  simp [slice, List.length_take, List.length_drop, hraw]
  omega

lemma indices_truncated (td : List ℕ) (w h : ℕ) (hlen : td.length < w * h) :
    extract_texture_indices td w h = Except.error "IndexError" := by
  have hw : 0 < w := by
    rcases Nat.eq_zero_or_pos w with hw | hw
    · rw [hw] at hlen; simp at hlen
    · exact hw
  have hy0 : td.length / w < h := by
    rw [Nat.div_lt_iff_lt_mul hw]
    calc td.length < w * h := hlen
      _ = h * w := by ring
  have hx0 : td.length % w < w := Nat.mod_lt _ hw
  have hidx : td.length / w * w + td.length % w = td.length := Nat.div_add_mod' _ _
  have hnone : td.get? (td.length / w * w + td.length % w) = none := by
    rw [hidx, List.get?_eq_getElem?]
    exact List.getElem?_eq_none le_rfl
  have finner : (fun x => match td.get? (td.length / w * w + x) with
      | some b => Except.ok b
      | none => Except.error "IndexError") (td.length % w) = Except.error "IndexError" := by
    dsimp only
    rw [hnone]
  obtain ⟨e1, he1⟩ := mapOrErr_error_of_mem (List.range w)
    (fun x => match td.get? (td.length / w * w + x) with
      | some b => Except.ok b
      | none => Except.error "IndexError") (td.length % w)
    (List.mem_range.mpr hx0) "IndexError" finner
  have he1e : e1 = "IndexError" := by
    obtain ⟨x, _, hfx⟩ := mapOrErr_error_mem _ _ _ he1
    revert hfx
    cases hq : td.get? (td.length / w * w + x) with
    | some b => intro hfx; cases hfx
    | none => intro hfx; injection hfx with hh; exact hh.symm
  rw [he1e] at he1
  obtain ⟨e2, he2⟩ := mapOrErr_error_of_mem (List.range h)
    (fun y => mapOrErr (List.range w) (fun x =>
      match td.get? (y * w + x) with
      | some b => Except.ok b
      | none => Except.error "IndexError"))
    (td.length / w) (List.mem_range.mpr hy0) "IndexError" he1
  have he2e : e2 = "IndexError" := by
    obtain ⟨y, _, hfy⟩ := mapOrErr_error_mem _ _ _ he2
    obtain ⟨x, _, hfx⟩ := mapOrErr_error_mem _ _ _ hfy
    revert hfx
    cases hq : td.get? (y * w + x) with
    | some b => intro hfx; cases hfx
    | none => intro hfx; injection hfx with hh; exact hh.symm
  rw [extract_texture_indices, he2, he2e]

lemma leBytes_take_two (d : List ℕ) (j : ℕ) (h : j + 2 ≤ d.length) :
    leBytes ((d.drop j).take 2) = le16 d j := by
  have h1 : j < d.length := by omega
  have h2 : j + 1 < d.length := by omega
  rw [List.drop_eq_getElem_cons h1, List.drop_eq_getElem_cons h2]
  rw [le16, List.getD_eq_getElem _ _ h1, List.getD_eq_getElem _ _ h2]
  simp [leBytes]

lemma width_expr (d : List ℕ) (ts : ℕ) (h4 : 4 ≤ ts) (hlen : ts ≤ d.length) :
    leBytes ((slice d (ts - 4) ts).take 2) = le16 d (ts - 4) := by
  unfold slice
  have e1 : ts - (ts - 4) = 4 := by omega
  rw [e1, List.take_take]
  have e2 : (2 : ℕ) ⊓ 4 = 2 := by decide
  rw [e2]
  exact leBytes_take_two d (ts - 4) (by omega)

lemma height_expr (d : List ℕ) (ts : ℕ) (h4 : 4 ≤ ts) (hlen : ts ≤ d.length) :
    leBytes ((slice d (ts - 4) ts).drop 2) = le16 d (ts - 2) := by
  unfold slice
  have e1 : ts - (ts - 4) = 4 := by omega
  rw [e1, List.drop_take, List.drop_drop]
  have e2 : ts - 4 + 2 = ts - 2 := by omega
  rw [e2]
  have e3 : (4 : ℕ) - 2 = 2 := by decide
  rw [e3]
  exact leBytes_take_two d (ts - 2) (by omega)

lemma scanLoop_size_inv (d : List ℕ) :
    ∀ (fuel start : ℕ) (r : TextureRec), r ∈ (scanLoop d fuel start).1 →
      4 ≤ r.texture_start ∧ r.texture_start + 4 ≤ d.length ∧
      r.width = le16 d (r.texture_start - 4) ∧
      r.height = le16 d (r.texture_start - 2) := by
  intro fuel
  induction fuel with
  | zero =>
    intro start r hr
    rw [scanLoop] at hr
    simp at hr
  | succ fuel ih =>
    intro start r hr
    rcases Nat.lt_or_ge start d.length with hlt | hge
    · rw [scanLoop, if_pos hlt] at hr
      cases hpsx : findPat d psxMarker start with
      | none => rw [hpsx] at hr; simp at hr
      | some ps =>
        rw [hpsx] at hr
        dsimp only at hr
        cases hgman : findPat d gmanMarker start with
        | none => rw [hgman] at hr; simp at hr
        | some ns =>
          rw [hgman] at hr
          dsimp only at hr
          by_cases hbmp : bmpTail.isSuffixOf (extract_name d ns) = true
          · rw [if_pos hbmp] at hr
            exact ih _ r hr
          · rw [if_neg hbmp] at hr
            cases hsent : findPat d dataSentinel (nameEnd d (ns + 4)) with
            | none => rw [hsent] at hr; simp at hr
            | some ts =>
              rw [hsent] at hr
              dsimp only at hr
              by_cases hts : 4 ≤ ts
              · rw [if_pos hts] at hr
                cases hpal : extract_palette
                    (slice d ts ((findPat d psxMarker (ts + 4)).getD d.length)) with
                | error e => rw [hpal] at hr; simp at hr
                | ok pal =>
                  rw [hpal] at hr
                  dsimp only at hr
                  cases hidx : extract_texture_indices
                      ((slice d ts ((findPat d psxMarker (ts + 4)).getD d.length)).drop (256 * 4))
                      (leBytes ((slice d (ts - 4) ts).take 2))
                      (leBytes ((slice d (ts - 4) ts).drop 2)) with
                  | error e => rw [hidx] at hr; simp at hr
                  | ok idx =>
                    rw [hidx] at hr
                    dsimp only at hr
                    rcases List.mem_cons.mp hr with hhead | htail
                    · have hb := findPat_bound d dataSentinel (nameEnd d (ns + 4)) ts hsent
                        (by norm_num [dataSentinel])
                      have hb4 : ts + 4 ≤ d.length := by
                        simpa [dataSentinel] using hb
                      rw [hhead]
                      refine ⟨hts, hb4, ?_, ?_⟩
                      · exact width_expr d ts hts (by omega)
                      · exact height_expr d ts hts (by omega)
                    · exact ih _ r htail
              · rw [if_neg hts] at hr
                exact ih _ r hr
    · rw [scanLoop, if_neg (by omega)] at hr
      simp at hr

/-! Claim theorems. -/

/-- Claim C1: `ps2_palette_reformat` on the raw 1024-byte palette buffer equals
the declarative permutation that, within each 128-byte block, swaps each
byte whose offset-within-block lies in the range from 64 up to (excluding)
96 with the byte 32 positions earlier and fixes all other bytes; and on
every byte string the correction is self-inverse. -/
theorem C1_palette_reformat (pal : List ℕ) :
    (pal.length = 1024 → ps2_palette_reformat pal = swizzleSpec pal) ∧
    ps2_palette_reformat (ps2_palette_reformat pal) = pal := by
  constructor
  · intro h1024
    apply List.ext_getElem
    · rw [reformat_length]; unfold swizzleSpec; simp
    · intro n h1 h2
      have hn : n < pal.length := by rw [reformat_length] at h1; exact h1
      have hL : (ps2_palette_reformat pal)[n] = (ps2_palette_reformat pal).getD n 0 :=
        (List.getD_eq_getElem _ _ h1).symm
      rw [hL, reformat_getD pal n hn]
      unfold swizzleSpec
      rw [List.getElem_map, List.getElem_range]
      have e : permUpTo pal.length n = swizzlePerm n := by
        unfold permUpTo swizzlePerm; rw [h1024] at hn ⊢; split_ifs <;> omega
      rw [e]
  · apply List.ext_getElem
    · rw [reformat_length, reformat_length]
    · intro n h1 h2
      have hn : n < pal.length := h2
      have hn1 : n < (ps2_palette_reformat pal).length := by rw [reformat_length]; exact hn
      rw [← List.getD_eq_getElem _ 0 h1, ← List.getD_eq_getElem _ 0 h2]
      rw [reformat_getD _ n hn1]
      rw [reformat_length]
      rw [reformat_getD pal _ (permUpTo_lt _ _ hn)]
      rw [permUpTo_invol _ _ hn]

theorem C1_palette_reformat_witness :
    (List.replicate 1024 0).length = 1024 ∧
    ps2_palette_reformat (List.replicate 1024 0) = swizzleSpec (List.replicate 1024 0) ∧
    ps2_palette_reformat (ps2_palette_reformat (List.replicate 1024 0)) = List.replicate 1024 0 :=
  ⟨by simp, (C1_palette_reformat (List.replicate 1024 0)).1 (by simp),
    (C1_palette_reformat (List.replicate 1024 0)).2⟩

/-- Claim C2 at the failing input: the buffer contains one well-formed record
whose name starts with the documented `psx_` marker (found at offset 0,
with its data sentinel at offset 12), yet the scan saves zero records,
because after finding `psx_` the code re-searches for the unrelated `gman`
marker; the empty buffer also yields zero records and normal termination. -/
theorem C2_scan_misses_psx_record :
    findPat dataC2 psxMarker 0 = some 0 ∧
    findPat dataC2 dataSentinel 0 = some 12 ∧
    findPat dataC2 gmanMarker 0 = none ∧
    extract_textures dataC2 = ([], none) ∧
    extract_textures [] = ([], none) := by
  refine ⟨by decide, by decide, by decide, by decide, by decide⟩

/-- Claim C3 (as stated) is false: with the marker matched at offset 0 and the
first three-zero run at offset 6, the extracted name is `gmanAB`, that is,
the four marker bytes followed by the bytes before the zero run, and not
the bytes strictly between the marker and the zero run. -/
theorem C3_counterexample :
    findPat dC3 gmanMarker 0 = some 0 ∧
    slice dC3 6 9 = [0, 0, 0] ∧
    slice dC3 4 7 ≠ [0, 0, 0] ∧
    slice dC3 5 8 ≠ [0, 0, 0] ∧
    extract_name dC3 0 = [103, 109, 97, 110, 65, 66] ∧
    sanitize_filename (asciiDecode (slice dC3 4 6)) = [65, 66] ∧
    extract_name dC3 0 ≠ sanitize_filename (asciiDecode (slice dC3 4 6)) := by
  decide

/-- Claim C3 (amended): for a marker matched at `ns` whose first subsequent
three-zero run starts at `z`, the extracted name consists of the marker
bytes together with the bytes between the marker and that zero run,
ASCII-decoded with NUL bytes replaced by underscore. -/
theorem C3_name_extraction (d : List ℕ) (ns z : ℕ)
    (h1 : ns + 4 ≤ z) (h2 : slice d z (z + 3) = [0, 0, 0])
    (h3 : ∀ j, j < z → ns + 4 ≤ j → slice d j (j + 3) ≠ [0, 0, 0]) :
    extract_name d ns = sanitize_filename (asciiDecode (slice d ns z)) := by
  have hz3 : z + 3 ≤ d.length := slice_three_le d z h2
  have he : nameEnd d (ns + 4) = z :=
    nameEnd_eq d (ns + 4) z h1 (Or.inr h2)
      (fun j hj1 hj2 => ⟨by omega, h3 j hj2 hj1⟩)
  rw [extract_name, he]

theorem C3_name_extraction_witness :
    extract_name dC3 0 = sanitize_filename (asciiDecode (slice dC3 0 6)) :=
  C3_name_extraction dC3 0 6 (by decide) (by decide) (by decide)

/-- Claim C4: with at least `width*height` bytes available, index extraction
returns the row-major `height × width` grid whose cell at row `y` and
column `x` is byte `y*width+x`; in particular `[0,1,2,3]` at 2 by 2 yields
the grid `[[0,1],[2,3]]`. -/
theorem C4_decode_indices :
    (∀ (td : List ℕ) (w h : ℕ), w * h ≤ td.length →
      extract_texture_indices td w h =
        Except.ok ((List.range h).map (fun y =>
          (List.range w).map (fun x => td.getD (y * w + x) 0)))) ∧
    extract_texture_indices [0, 1, 2, 3] 2 2 = Except.ok [[0, 1], [2, 3]] := by
  constructor
  · intro td w h hlen
    apply mapOrErr_ok
    intro y hy
    apply mapOrErr_ok
    intro x hx
    rw [List.mem_range] at hy hx
    have hin : y * w + x < td.length := by
      have h1 : y * w + x < (y + 1) * w := by
        have : (y + 1) * w = y * w + w := by ring
        omega
      have h2 : (y + 1) * w ≤ h * w := Nat.mul_le_mul_right w (by omega)
      have h3 : h * w = w * h := by ring
      omega
    rw [List.get?_eq_getElem?, List.getElem?_eq_getElem hin]
    rw [List.getD_eq_getElem _ _ hin]
  · rfl

theorem C4_decode_indices_witness :
    2 * 2 ≤ ([0, 1, 2, 3] : List ℕ).length ∧
    extract_texture_indices [0, 1, 2, 3] 2 2 =
      Except.ok ((List.range 2).map (fun y =>
        (List.range 2).map (fun x => ([0, 1, 2, 3] : List ℕ).getD (y * 2 + x) 0))) :=
  ⟨by decide, C4_decode_indices.1 [0, 1, 2, 3] 2 2 (by decide)⟩

/-- Claim C5: every record saved by the marker-scan pipeline has a data
sentinel preceded by at least 4 bytes, with its width decoded as the
little-endian uint16 at bytes 0-1 and its height as the little-endian
uint16 at bytes 2-3 of the 4-byte window ending at the sentinel. -/
theorem C5_size_from_window (d : List ℕ) (r : TextureRec)
    (h : r ∈ (extract_textures d).1) :
    4 ≤ r.texture_start ∧ r.texture_start + 4 ≤ d.length ∧
    r.width = le16 d (r.texture_start - 4) ∧
    r.height = le16 d (r.texture_start - 2) :=
  scanLoop_size_inv d (d.length + 1) 0 r h

theorem C5_size_from_window_witness :
    4 ≤ ((extract_textures dataB).1.getD 0 defRec).texture_start ∧
    ((extract_textures dataB).1.getD 0 defRec).texture_start + 4 ≤ dataB.length ∧
    ((extract_textures dataB).1.getD 0 defRec).width =
      le16 dataB (((extract_textures dataB).1.getD 0 defRec).texture_start - 4) ∧
    ((extract_textures dataB).1.getD 0 defRec).height =
      le16 dataB (((extract_textures dataB).1.getD 0 defRec).texture_start - 2) :=
  C5_size_from_window dataB _ (by decide)

/-- Claim C6 (as stated) is false for the fixed-header path: with fewer than
`width*height` pixel bytes remaining (2 available versus 2 times 2
declared), `get_texture_image` does not fail but silently returns a
partially-filled image holding only the two available pixels. -/
theorem C6_counterexample :
    dataC6.length < texC6.offset + 1024 + texC6.width * texC6.height ∧
    get_texture_image dataC6 texC6 = some (2, 2, [[5, 5, 5], [5, 5, 5]]) ∧
    ([[5, 5, 5], [5, 5, 5]] : List (List ℕ)).length < texC6.width * texC6.height := by
  refine ⟨by decide, by decide, by decide⟩

/-- Claim C6 (amended): the marker-scan index extraction fails with an
`IndexError` when fewer than `width*height` bytes remain; the fixed-header
`get_texture_image` instead always succeeds when its palette block is the
full 1024 bytes, mapping exactly the pixel bytes that remain (a silently
partial image when the buffer is truncated). -/
theorem C6_truncation :
    (∀ (td : List ℕ) (w h : ℕ), td.length < w * h →
      extract_texture_indices td w h = Except.error "IndexError") ∧
    (∀ (data : List ℕ) (tex : Tex), tex.palette.length = 1024 →
      get_texture_image data tex =
        some (tex.width, tex.height,
          (slice data (tex.offset + 1024) (tex.offset + 1024 + tex.width * tex.height)).map
            (fun i => (paletteOfRaw tex.palette).getD (i % 256) []))) := by
  constructor
  · exact indices_truncated
  · intro data tex hpal
    unfold get_texture_image
    simp only [paletteOfRaw_length]
    rw [if_pos]
    apply List.all_eq_true.mpr
    intro p hp
    obtain ⟨i, _, hip⟩ := List.mem_map.mp hp
    rw [← hip]
    exact decide_eq_true
      (paletteOfRaw_entry_len tex.palette hpal (i % 256) (Nat.mod_lt _ (by omega)))

theorem C6_truncation_witness :
    (([0] : List ℕ).length < 1 * 2 ∧
      extract_texture_indices [0] 1 2 = Except.error "IndexError") ∧
    (texC6.palette.length = 1024 ∧
      get_texture_image dataC6 texC6 =
        some (texC6.width, texC6.height,
          (slice dataC6 (texC6.offset + 1024)
            (texC6.offset + 1024 + texC6.width * texC6.height)).map
            (fun i => (paletteOfRaw texC6.palette).getD (i % 256) []))) :=
  ⟨⟨by decide, C6_truncation.1 [0] 1 2 (by decide)⟩,
    ⟨by simp [texC6], C6_truncation.2 dataC6 texC6 (by simp [texC6])⟩⟩

/-- Claim C7 (as stated) is false for the marker-scan pipeline: on a buffer
with two records where the decode of the first record fails (`ValueError`
while unpacking its palette), the scan aborts with no saved record, even
though the second record decodes fine on its own (scanning the same bytes
from its start yields exactly one record and terminates normally). -/
theorem C7_counterexample :
    extract_textures dataC7 = ([], some "ValueError") ∧
    (extract_textures (dataC7.drop 28)).1.length = 1 ∧
    (extract_textures (dataC7.drop 28)).2 = none := by
  refine ⟨by decide, by decide, by decide⟩

/-- Claim C7 (amended): in the fixed-header pipeline, a record whose decode
fails is skipped and does not affect its siblings: removing a failing
record from the texture list leaves the output of `save_all_png8`
unchanged. -/
theorem C7_per_record_outcome (data : List ℕ) (l1 l2 : List Tex) (t : Tex)
    (h : get_texture_image data t = none) :
    save_all_png8 data (l1 ++ t :: l2) = save_all_png8 data (l1 ++ l2) := by
  simp [save_all_png8, List.filterMap_append, List.filterMap_cons, h]

theorem C7_per_record_outcome_witness :
    get_texture_image (List.replicate 1025 0) badTex = none ∧
    save_all_png8 (List.replicate 1025 0) ([texC6] ++ badTex :: [texC6]) =
      save_all_png8 (List.replicate 1025 0) ([texC6] ++ [texC6]) :=
  ⟨by decide,
    C7_per_record_outcome (List.replicate 1025 0) [texC6] [texC6] badTex (by decide)⟩

/-- Claim C8: flattening maps each pixel byte through the palette entry at that
index (clamped with modulo, which the lookup `palette[i % len(palette)]`
documents): if every available pixel byte is 5 and palette entry 5 is
(10,20,30), every pixel of the flattened output equals (10,20,30). -/
theorem C8_flatten_constant (data : List ℕ) (tex : Tex)
    (hpal : (paletteOfRaw tex.palette).getD 5 [] = [10, 20, 30])
    (hpd : ∀ b ∈ slice data (tex.offset + 1024)
      (tex.offset + 1024 + tex.width * tex.height), b = 5) :
    get_texture_image data tex =
      some (tex.width, tex.height,
        List.replicate (slice data (tex.offset + 1024)
          (tex.offset + 1024 + tex.width * tex.height)).length [10, 20, 30]) := by
  unfold get_texture_image
  simp only [paletteOfRaw_length]
  have hmap : (slice data (tex.offset + 1024)
      (tex.offset + 1024 + tex.width * tex.height)).map
      (fun i => (paletteOfRaw tex.palette).getD (i % 256) []) =
      List.replicate (slice data (tex.offset + 1024)
        (tex.offset + 1024 + tex.width * tex.height)).length [10, 20, 30] := by
    apply List.eq_replicate_iff.mpr
    constructor
    · simp
    · intro b hb
      obtain ⟨i, hi, hib⟩ := List.mem_map.mp hb
      rw [← hib, hpd i hi]
      simpa using hpal
  rw [hmap, if_pos]
  apply List.all_eq_true.mpr
  intro p hp
  rw [List.eq_of_mem_replicate hp]
  decide

theorem C8_flatten_constant_witness :
    get_texture_image data8 tex8 =
      some (tex8.width, tex8.height,
        List.replicate (slice data8 (tex8.offset + 1024)
          (tex8.offset + 1024 + tex8.width * tex8.height)).length [10, 20, 30]) :=
  C8_flatten_constant data8 tex8 (by decide) (by decide)

/-- Claim C9: when the extracted name of the matched record ends in `.BMP`,
one iteration of the scan loop emits no record and resumes scanning from
the end of that name. -/
theorem C9_bmp_skip (d : List ℕ) (fuel start ns ps : ℕ)
    (h1 : findPat d psxMarker start = some ps)
    (h2 : findPat d gmanMarker start = some ns)
    (h3 : bmpTail.isSuffixOf (extract_name d ns) = true) :
    scanLoop d (fuel + 1) start = scanLoop d fuel (nameEnd d (ns + 4)) := by
  have hb := findPat_bound d gmanMarker start ns h2 (by norm_num [gmanMarker])
  have hs := (findPat_some d gmanMarker start ns h2).1
  have hlt : start < d.length := by
    have : gmanMarker.length = 4 := by norm_num [gmanMarker]
    omega
  rw [scanLoop, if_pos hlt, h1, h2]
  dsimp only
  rw [if_pos h3]

theorem C9_bmp_skip_witness :
    bmpTail.isSuffixOf (extract_name dataC9 4) = true ∧
    scanLoop dataC9 6 0 = scanLoop dataC9 5 (nameEnd dataC9 8) :=
  ⟨by decide, C9_bmp_skip dataC9 5 0 4 0 (by decide) (by decide) (by decide)⟩

/-- Claim C10: the palette built by `get_texture_image` always has exactly 256
entries, so for every pixel byte (a value below 256) the modulo-clamped
lookup coincides with the direct lookup and an out-of-range palette index
cannot occur. -/
theorem C10_palette_total (raw : List ℕ) (i : ℕ) (h : i < 256) :
    (paletteOfRaw raw).length = 256 ∧
    (paletteOfRaw raw).getD (i % (paletteOfRaw raw).length) [] =
      (paletteOfRaw raw).getD i [] := by
  refine ⟨paletteOfRaw_length raw, ?_⟩
  rw [paletteOfRaw_length, Nat.mod_eq_of_lt h]

theorem C10_palette_total_witness :
    (7 : ℕ) < 256 ∧ (paletteOfRaw []).length = 256 ∧
    (paletteOfRaw []).getD (7 % (paletteOfRaw []).length) [] =
      (paletteOfRaw []).getD 7 [] :=
  ⟨by decide, (C10_palette_total [] 7 (by decide)).1, (C10_palette_total [] 7 (by decide)).2⟩

end PS2
